import Mathlib

/-!
Shallow embedding of the analytics core of `streamlit_app.py` (enzyme research
dashboard): the monthly-to-daily humidity interpolation of `get_weather_data`,
the multi-predicate enzyme record filter, the efficiency ranking
(`nlargest(k, 'Efficiency')`), and the Pearson correlation matrix of the
numeric columns.  Numeric values are modelled as exact rationals; the IEEE
special values produced by a zero divisor are modelled explicitly by `EffVal`.
-/

namespace EnzymeDashboard

/-!
### Rounding

Python's builtin `round(x, 1)` rounds half to even at one decimal place.
The source applies it to every interpolated humidity value (line 107) and to
the current-month anchor (line 111).
-/

/-- Round a rational to the nearest integer, halves to the even neighbour
(the rounding mode of Python's builtin `round`). -/
def roundHalfEven (x : ℚ) : ℤ :=
  let f : ℤ := ⌊x⌋
  let r : ℚ := x - f
  if r < 1/2 then f
  else if 1/2 < r then f + 1
  else if f % 2 = 0 then f else f + 1

/-- Model of Python's `round(x, 1)`: round to one decimal place. -/
def roundTo1 (x : ℚ) : ℚ := (roundHalfEven (10 * x) : ℚ) / 10

/-!
### Calendar

Model of `calendar.monthrange(year, month)[1]` used at line 93 of the source.
-/

/-- Gregorian leap-year rule, as implemented by Python's `calendar` module. -/
def isLeapYear (y : ℕ) : Bool := y % 4 = 0 && (y % 100 ≠ 0 || y % 400 = 0)

/-- Number of days of month `m` (1-12) of year `y`
(`calendar.monthrange(y, m)[1]`). -/
def daysInMonth (y m : ℕ) : ℕ :=
  if m = 2 then (if isLeapYear y then 29 else 28)
  else if m = 4 ∨ m = 6 ∨ m = 9 ∨ m = 11 then 30
  else 31

/-!
### Humidity interpolation (`get_weather_data`, lines 95-108)
-/

/-- The pre-rounding humidity of day `day` (1-based) of a month of `days`
days, blended from the three monthly anchors exactly as in the source:
`progress = (day-1)/(days-1)`; the first fifth of the month blends the
previous and the current month, the last fifth blends the current and the
next month, and the middle keeps the current-month anchor unchanged. -/
def interpolateDay (prev curr next : ℚ) (day days : ℕ) : ℚ :=
  let progress : ℚ := ((day : ℚ) - 1) / ((days : ℚ) - 1)
  if progress < 0.2 then
    prev * (0.2 - progress) / 0.2 + curr * progress / 0.2
  else if progress > 0.8 then
    curr * (1 - progress) / 0.2 + next * (progress - 0.8) / 0.2
  else
    curr

/-- The `daily_humidity` list built by the loop at lines 95-107: one rounded
value per day, for days `1 .. days`. -/
def dailyHumidityList (prev curr next : ℚ) (days : ℕ) : List ℚ :=
  (List.range days).map fun i => roundTo1 (interpolateDay prev curr next (i + 1) days)

/-- Index of the previous month (`current_month_idx-1 if current_month_idx > 0
else 11`, line 83); `idx` is the 0-based month index. -/
def prevIdx (idx : ℕ) : ℕ := if 0 < idx then idx - 1 else 11

/-- Index of the next month (`(current_month_idx+1) % 12`, line 84). -/
def nextIdx (idx : ℕ) : ℕ := (idx + 1) % 12

/-- The interpolation of one month from a profile of 12 monthly values:
anchor selection (lines 80-84) followed by the daily loop.  This is the
`interpolateMonth` operation of the specification, with the ambient current
date made an explicit `(year, month)` argument. -/
def interpolateMonth (monthly : List ℚ) (year month : ℕ) : List ℚ :=
  let idx := month - 1
  dailyHumidityList (monthly.getD (prevIdx idx) 0) (monthly.getD idx 0)
    (monthly.getD (nextIdx idx) 0) (daysInMonth year month)

/-!
### The climate table and `get_weather_data`
-/

/-- One row of `climate_data.csv`: city, country code, 12 monthly humidity
percentages, annual average, coordinates. -/
structure ClimateRow where
  City : String
  Country_Code : String
  monthly : List ℚ
  Annual_Avg : ℚ
  Latitude : ℚ
  Longitude : ℚ
deriving DecidableEq

/-- A calendar date; `datetime.now()` is modelled by passing a `Date`
explicitly (only `year` and `month` are read by the source). -/
structure Date where
  year : ℕ
  month : ℕ
  day : ℕ
deriving DecidableEq

/-- The dictionary returned by `get_weather_data` (lines 110-117), with the
date strings replaced by structured dates. -/
structure WeatherData where
  current_humidity : ℚ
  daily_humidity : List ℚ
  dates : List Date
  annual_average : ℚ
  latitude : ℚ
  longitude : ℚ
deriving DecidableEq

/-- `get_weather_data(city, country_code)`.  The loaded `climate_data.csv`
is the explicit argument `table` and the ambient `datetime.now()` is the
explicit argument `now`.  The source selects rows by `City` alone (the
`country_code` argument is never used for the lookup); we model the selected
row as the first match, and an empty selection returns `None`. -/
def getWeatherData (table : List ClimateRow) (city : String) (now : Date) :
    Option WeatherData :=
  match table.find? (fun row => row.City == city) with
  | none => none
  | some row =>
    let idx := now.month - 1
    let monthlyHumidity := row.monthly.getD idx 0
    let prevMonthHumidity := row.monthly.getD (prevIdx idx) 0
    let nextMonthHumidity := row.monthly.getD (nextIdx idx) 0
    let days := daysInMonth now.year now.month
    some { current_humidity := roundTo1 monthlyHumidity
           daily_humidity := dailyHumidityList prevMonthHumidity monthlyHumidity
             nextMonthHumidity days
           dates := (List.range days).map fun i => ⟨now.year, now.month, i + 1⟩
           annual_average := row.Annual_Avg
           latitude := row.Latitude
           longitude := row.Longitude }

/-!
### Enzyme records and the filter (lines 382-391)
-/

/-- One row of `enzyme_dataset.tsv`, with the source's column names. -/
structure EnzymeRecord where
  Enzyme_Name : String
  Classification : String
  Organism : String
  Km_Value : ℚ
  Vmax : ℚ
  Temperature_Optimum : ℚ
  pH_Optimum : ℚ
  Molecular_Weight : ℚ
  Substrate : String
  Product : String
  Application : String
deriving DecidableEq

/-- The sidebar filter parameters: selected classification (`'All'` is the
wildcard), temperature range, pH range, molecular-weight lower bound. -/
structure FilterParams where
  selectedClass : String
  tempLo : ℚ
  tempHi : ℚ
  phLo : ℚ
  phHi : ℚ
  mwThreshold : ℚ
deriving DecidableEq

/-- Line 384-385: the classification filter is applied only when the
selection is not `'All'`. -/
def classStep (p : FilterParams) (df : List EnzymeRecord) : List EnzymeRecord :=
  if p.selectedClass ≠ "All" then
    df.filter fun r => r.Classification == p.selectedClass
  else df

/-- Lines 387-388: inclusive temperature range. -/
def tempStep (p : FilterParams) (df : List EnzymeRecord) : List EnzymeRecord :=
  df.filter fun r =>
    decide (p.tempLo ≤ r.Temperature_Optimum) && decide (r.Temperature_Optimum ≤ p.tempHi)

/-- Lines 389-390: inclusive pH range. -/
def phStep (p : FilterParams) (df : List EnzymeRecord) : List EnzymeRecord :=
  df.filter fun r =>
    decide (p.phLo ≤ r.pH_Optimum) && decide (r.pH_Optimum ≤ p.phHi)

/-- Line 391: molecular weight lower bound (no upper bound). -/
def mwStep (p : FilterParams) (df : List EnzymeRecord) : List EnzymeRecord :=
  df.filter fun r => decide (p.mwThreshold ≤ r.Molecular_Weight)

/-- The filter pipeline of lines 382-391, applied in source order. -/
def applyFilters (df : List EnzymeRecord) (p : FilterParams) : List EnzymeRecord :=
  mwStep p (phStep p (tempStep p (classStep p df)))

/-- The conjunction of the four predicates, as one boolean predicate. -/
def recordPred (p : FilterParams) (r : EnzymeRecord) : Bool :=
  (p.selectedClass == "All" || r.Classification == p.selectedClass) &&
  (decide (p.tempLo ≤ r.Temperature_Optimum) && decide (r.Temperature_Optimum ≤ p.tempHi)) &&
  (decide (p.phLo ≤ r.pH_Optimum) && decide (r.pH_Optimum ≤ p.phHi)) &&
  decide (p.mwThreshold ≤ r.Molecular_Weight)

/-!
### Efficiency and `nlargest` (lines 447-448)

`filtered_df['Efficiency'] = filtered_df['Vmax'] / filtered_df['Km_Value']`
is IEEE float division: a zero divisor yields a signed infinity for a
nonzero numerator and NaN for `0/0`; we model the result exactly as an
`EffVal` (nonzero-divisor quotients are kept as exact rationals).
`Series.nlargest(k)` drops NaN entries, sorts the rest descending with a
stable sort (`keep='first'`: ties are resolved toward earlier rows) and
returns the first `k` rows.
-/

/-- An efficiency value: a finite rational or one of the IEEE special values
produced by a zero divisor. -/
inductive EffVal where
  | nan
  | posInf
  | negInf
  | val (q : ℚ)
deriving DecidableEq

/-- IEEE division, as produced by `Vmax / Km_Value` on float columns. -/
def effDiv (v k : ℚ) : EffVal :=
  if k ≠ 0 then .val (v / k)
  else if 0 < v then .posInf
  else if v < 0 then .negInf
  else .nan

/-- The derived `Efficiency` column of a record. -/
def efficiency (r : EnzymeRecord) : EffVal := effDiv r.Vmax r.Km_Value

/-- Whether an efficiency is NaN (dropped by `nlargest`). -/
def effIsNan : EffVal → Bool
  | .nan => true
  | _ => false

/-- Rank of an efficiency value in the IEEE order used by `nlargest`:
`-inf` below every finite value, `+inf` above.  NaN entries are removed
before any comparison is made, so their rank is never consulted; we place
them at the bottom so that the order is total. -/
def effRank : EffVal → WithBot (WithTop ℚ)
  | .nan => ⊥
  | .negInf => ⊥
  | .posInf => ((⊤ : WithTop ℚ) : WithBot (WithTop ℚ))
  | .val q => ((q : WithTop ℚ) : WithBot (WithTop ℚ))

/-- The descending comparison used to sort records by efficiency: `a` may
come before `b` when the efficiency of `a` is at least that of `b`. -/
def effGE (a b : EnzymeRecord) : Prop :=
  effRank (efficiency b) ≤ effRank (efficiency a)

instance : DecidableRel effGE := fun a b =>
  inferInstanceAs (Decidable (effRank (efficiency b) ≤ effRank (efficiency a)))

instance : IsTotal EnzymeRecord effGE :=
  ⟨fun a b => le_total (effRank (efficiency b)) (effRank (efficiency a))⟩

instance : IsTrans EnzymeRecord effGE := ⟨fun _ _ _ h1 h2 => le_trans h2 h1⟩

/-- `filtered_df.nlargest(k, 'Efficiency')`: drop NaN efficiencies, stable
descending sort by efficiency, first `k` rows. -/
def topEfficient (df : List EnzymeRecord) (k : ℕ) : List EnzymeRecord :=
  ((df.filter fun r => !effIsNan (efficiency r)).insertionSort effGE).take k

/-!
### The analysis pipeline state (frame property)

`main` keeps the loaded table `df` and the working copy `filtered_df`
(`filtered_df = df.copy()`, line 382) side by side; every later step
reassigns `filtered_df` only.  The derived `Efficiency` column exists only
on the copy, so the copy's rows carry an optional efficiency.
-/

/-- A row of the working copy: the base record plus the `Efficiency` column
once it has been assigned. -/
structure CopyRow where
  base : EnzymeRecord
  eff : Option EffVal
deriving DecidableEq

/-- The two data-frame variables of `main`. -/
structure SessionState where
  df : List EnzymeRecord
  filtered : List CopyRow
deriving DecidableEq

/-- Line 382: `filtered_df = df.copy()`. -/
def copyStep (s : SessionState) : SessionState :=
  { s with filtered := s.df.map fun r => ⟨r, none⟩ }

/-- Lines 384-385 on the working copy. -/
def classFilterStep (p : FilterParams) (s : SessionState) : SessionState :=
  { s with filtered :=
      if p.selectedClass ≠ "All" then
        s.filtered.filter fun x => x.base.Classification == p.selectedClass
      else s.filtered }

/-- Lines 387-388 on the working copy. -/
def tempFilterStep (p : FilterParams) (s : SessionState) : SessionState :=
  { s with filtered := s.filtered.filter fun x =>
      decide (p.tempLo ≤ x.base.Temperature_Optimum) &&
      decide (x.base.Temperature_Optimum ≤ p.tempHi) }

/-- Lines 389-390 on the working copy. -/
def phFilterStep (p : FilterParams) (s : SessionState) : SessionState :=
  { s with filtered := s.filtered.filter fun x =>
      decide (p.phLo ≤ x.base.pH_Optimum) && decide (x.base.pH_Optimum ≤ p.phHi) }

/-- Line 391 on the working copy. -/
def mwFilterStep (p : FilterParams) (s : SessionState) : SessionState :=
  { s with filtered := s.filtered.filter fun x =>
      decide (p.mwThreshold ≤ x.base.Molecular_Weight) }

/-- Line 447: `filtered_df['Efficiency'] = ...` assigns the derived column
on the working copy. -/
def addEfficiencyStep (s : SessionState) : SessionState :=
  { s with filtered := s.filtered.map fun x => ⟨x.base, some (efficiency x.base)⟩ }

/-- The whole filtering-and-metrics pipeline of `main`, acting on the pair
of frames. -/
def runAnalysis (df : List EnzymeRecord) (p : FilterParams) : SessionState :=
  addEfficiencyStep (mwFilterStep p (phFilterStep p (tempFilterStep p
    (classFilterStep p (copyStep ⟨df, []⟩)))))

/-!
### The correlation matrix (lines 543-549)

`filtered_df[numeric_cols].corr()` computes the pairwise Pearson
correlation: each pair of columns is demeaned, and the entry is the cross
sum divided by the square root of the product of the two squared sums; a
zero divisor (a constant column) yields NaN, modelled as `none`.  The
matrix is only computed under the guard `len(filtered_df) > 1` (line 547).
-/

/-- The five numeric columns of line 543, in source order. -/
def numColVal (i : Fin 5) : EnzymeRecord → ℚ :=
  match i with
  | ⟨0, _⟩ => fun r => r.Km_Value
  | ⟨1, _⟩ => fun r => r.Vmax
  | ⟨2, _⟩ => fun r => r.Temperature_Optimum
  | ⟨3, _⟩ => fun r => r.pH_Optimum
  | ⟨4, _⟩ => fun r => r.Molecular_Weight

/-- The values of column `i` over the filtered records. -/
def colList (R : List EnzymeRecord) (i : Fin 5) : List ℚ := R.map (numColVal i)

/-- Mean of a column. -/
def colMean (xs : List ℚ) : ℚ := xs.sum / xs.length

/-- The demeaned cross sum `Σ (x - mean xs)(y - mean ys)` over paired
entries, the building block of the Pearson correlation. -/
def demeanedDot (xs ys : List ℚ) : ℚ :=
  ((xs.zip ys).map fun q => (q.1 - colMean xs) * (q.2 - colMean ys)).sum

/-- One entry of the Pearson correlation matrix; `none` models the NaN
produced by a zero divisor (a constant column). -/
noncomputable def corrEntry (R : List EnzymeRecord) (i j : Fin 5) : Option ℝ :=
  if demeanedDot (colList R i) (colList R i) * demeanedDot (colList R j) (colList R j) = 0
  then none
  else some ((demeanedDot (colList R i) (colList R j) : ℝ) /
    Real.sqrt ((demeanedDot (colList R i) (colList R i) *
      demeanedDot (colList R j) (colList R j) : ℚ) : ℝ))

/-- The guarded correlation section of lines 547-549: the matrix is built
only when the filtered set has more than one record. -/
noncomputable def correlationSection (R : List EnzymeRecord) :
    Option (Fin 5 → Fin 5 → Option ℝ) :=
  if 1 < R.length then some (fun i j => corrEntry R i j) else none

/-- The monthly profile of the specification's worked example
(Jan..Dec values `[40,45,50,55,60,65,70,65,60,55,50,45]`). -/
def marchProfile : List ℚ := [40, 45, 50, 55, 60, 65, 70, 65, 60, 55, 50, 45]

/-- A named record for the one-record example table. -/
def catRec : EnzymeRecord :=
  ⟨"Catalase", "Oxidoreductase", "Bos taurus", 25, 800, 37, 7, 250000,
    "Hydrogen peroxide", "Water + Oxygen", "Food preservation"⟩

/-- A one-record table used to exercise the filter claims. -/
def dfw : List EnzymeRecord := [catRec]

/-- The default filter parameters of the worked example: wildcard
classification, covering ranges, zero weight threshold. -/
def prmAll : FilterParams := ⟨"All", 0, 100, 0, 14, 0⟩

/-- A three-record table with nonzero `Km` values (with an efficiency tie
between the first and the last record). -/
def rankTable : List EnzymeRecord :=
  [⟨"A", "Hydrolase", "O1", 2, 10, 37, 7, 50000, "S", "P", "X"⟩,
   ⟨"B", "Transferase", "O2", 1, 9, 40, 6, 60000, "S", "P", "X"⟩,
   ⟨"C", "Ligase", "O3", 4, 20, 30, 8, 70000, "S", "P", "X"⟩]

/-- The `{Km:2, Vmax:10}` record of the specification's example. -/
def c1e1 : EnzymeRecord :=
  ⟨"E1", "Hydrolase", "O1", 2, 10, 37, 7, 50000, "S", "P", "X"⟩

/-- The `{Km:0, Vmax:5}` record of the specification's example. -/
def c1e2 : EnzymeRecord :=
  ⟨"E2", "Lyase", "O2", 0, 5, 40, 6, 60000, "S", "P", "X"⟩

/-- The two-record example table. -/
def c1R : List EnzymeRecord := [c1e1, c1e2]

/-- A one-city climate table used to exhibit the dependence on the ambient
current date. -/
def xrow : ClimateRow :=
  ⟨"X", "XX", [40, 45, 50, 55, 60, 65, 70, 65, 60, 55, 50, 45], 55, 10, 20⟩

/-- A record used to build concrete correlation inputs. -/
def crec : EnzymeRecord := ⟨"C1", "Hydrolase", "O", 1, 2, 3, 4, 5, "S", "P", "A"⟩

/-- A table of two identical records: every numeric column is constant. -/
def cR : List EnzymeRecord := [crec, crec]

/-- A second record whose `Km` column differs from `crec`. -/
def crec2 : EnzymeRecord := ⟨"C2", "Lyase", "O", 3, 6, 9, 5, 8, "S", "P", "A"⟩

/-- A two-record table with a non-constant `Km` column. -/
def cR2 : List EnzymeRecord := [crec, crec2]

/-!
## Helper lemmas
-/

theorem roundHalfEven_nonneg {x : ℚ} (h : 0 ≤ x) : 0 ≤ roundHalfEven x := by
  have hf : (0 : ℤ) ≤ ⌊x⌋ := Int.floor_nonneg.mpr h
  simp only [roundHalfEven]
  split_ifs <;> omega

theorem roundHalfEven_le {x : ℚ} {N : ℤ} (h : x ≤ N) : roundHalfEven x ≤ N := by
  have hfN : ⌊x⌋ ≤ N := by
    have := Int.floor_le_floor h
    simpa using this
  have hfl : (⌊x⌋ : ℚ) ≤ x := Int.floor_le x
  simp only [roundHalfEven]
  split_ifs with h1 h2 h3
  · exact hfN
  · -- carry case: the fractional part is above one half, so the floor is below N
    have hr : (1 : ℚ)/2 ≤ x - ⌊x⌋ := le_of_not_lt h1
    have : (⌊x⌋ : ℚ) < (N : ℚ) := by linarith
    have : ⌊x⌋ < N := by exact_mod_cast this
    omega
  · exact hfN
  · have hr : (1 : ℚ)/2 ≤ x - ⌊x⌋ := le_of_not_lt h1
    have : (⌊x⌋ : ℚ) < (N : ℚ) := by linarith
    have : ⌊x⌋ < N := by exact_mod_cast this
    omega

theorem roundHalfEven_intCast (n : ℤ) : roundHalfEven (n : ℚ) = n := by
  simp only [roundHalfEven, Int.floor_intCast, sub_self]
  norm_num

theorem roundTo1_eq (x : ℚ) (n : ℤ) (h : 10 * x = (n : ℚ)) :
    roundTo1 x = (n : ℚ) / 10 := by
  rw [roundTo1, h, roundHalfEven_intCast]

theorem roundTo1_bounds {x : ℚ} (h0 : 0 ≤ x) (h100 : x ≤ 100) :
    0 ≤ roundTo1 x ∧ roundTo1 x ≤ 100 := by
  have hnn : (0 : ℤ) ≤ roundHalfEven (10 * x) := roundHalfEven_nonneg (by linarith)
  have hub : roundHalfEven (10 * x) ≤ (1000 : ℤ) := roundHalfEven_le (by push_cast; linarith)
  constructor
  · apply div_nonneg _ (by norm_num)
    exact_mod_cast hnn
  · rw [roundTo1, div_le_iff₀ (by norm_num : (0:ℚ) < 10)]
    have : ((roundHalfEven (10 * x) : ℤ) : ℚ) ≤ (1000 : ℚ) := by exact_mod_cast hub
    linarith

theorem daysInMonth_ge (y m : ℕ) : 28 ≤ daysInMonth y m := by
  unfold daysInMonth
  split_ifs <;> omega

theorem dailyHumidityList_length (prev curr next : ℚ) (days : ℕ) :
    (dailyHumidityList prev curr next days).length = days := by
  simp [dailyHumidityList]

theorem dailyHumidityList_getD (prev curr next : ℚ) {days i : ℕ} (h : i < days) :
    (dailyHumidityList prev curr next days).getD i 0 =
      roundTo1 (interpolateDay prev curr next (i + 1) days) := by
  have hlen : i < (dailyHumidityList prev curr next days).length := by
    simpa [dailyHumidityList] using h
  rw [List.getD_eq_getElem _ _ hlen]
  simp [dailyHumidityList]

theorem interpolateDay_day_one (prev curr next : ℚ) (days : ℕ) :
    interpolateDay prev curr next 1 days = prev := by
  simp only [interpolateDay]
  rw [show (((1:ℕ):ℚ) - 1) / ((days:ℚ) - 1) = 0 by norm_num]
  rw [if_pos (by norm_num : (0:ℚ) < 0.2)]
  norm_num

theorem interpolateDay_last (prev curr next : ℚ) {days : ℕ} (h : 2 ≤ days) :
    interpolateDay prev curr next days days = next := by
  have h2 : (2:ℚ) ≤ (days:ℚ) := by exact_mod_cast h
  have hd : ((days:ℚ) - 1) ≠ 0 := by linarith
  simp only [interpolateDay]
  rw [div_self hd]
  rw [if_neg (by norm_num : ¬ ((1:ℚ) < 0.2)), if_pos (by norm_num : (1:ℚ) > 0.8)]
  norm_num

theorem interpolateDay_mid (prev curr next : ℚ) {day days : ℕ}
    (hlo : (0.2 : ℚ) ≤ ((day:ℚ) - 1) / ((days:ℚ) - 1))
    (hhi : ((day:ℚ) - 1) / ((days:ℚ) - 1) ≤ 0.8) :
    interpolateDay prev curr next day days = curr := by
  simp only [interpolateDay]
  rw [if_neg (not_lt.mpr hlo), if_neg (not_lt.mpr hhi)]

theorem interpolateDay_bounds (prev curr next : ℚ) {day days : ℕ}
    (hdays : 2 ≤ days) (h1 : 1 ≤ day) (h2 : day ≤ days) :
    min prev (min curr next) ≤ interpolateDay prev curr next day days ∧
      interpolateDay prev curr next day days ≤ max prev (max curr next) := by
  have hlop : min prev (min curr next) ≤ prev := min_le_left _ _
  have hloc : min prev (min curr next) ≤ curr :=
    le_trans (min_le_right _ _) (min_le_left _ _)
  have hlon : min prev (min curr next) ≤ next :=
    le_trans (min_le_right _ _) (min_le_right _ _)
  have hphi : prev ≤ max prev (max curr next) := le_max_left _ _
  have hchi : curr ≤ max prev (max curr next) :=
    le_trans (le_max_left _ _) (le_max_right _ _)
  have hnhi : next ≤ max prev (max curr next) :=
    le_trans (le_max_right _ _) (le_max_right _ _)
  have hdq : (2:ℚ) ≤ (days:ℚ) := by exact_mod_cast hdays
  have hdpos : (0:ℚ) < (days:ℚ) - 1 := by linarith
  have hdayq : (1:ℚ) ≤ (day:ℚ) := by exact_mod_cast h1
  have hdayle : (day:ℚ) ≤ (days:ℚ) := by exact_mod_cast h2
  simp only [interpolateDay]
  set pg : ℚ := ((day:ℚ) - 1) / ((days:ℚ) - 1) with hpgdef
  have hpg0 : 0 ≤ pg := div_nonneg (by linarith) (le_of_lt hdpos)
  have hpg1 : pg ≤ 1 := by
    rw [hpgdef, div_le_one hdpos]; linarith
  have h02 : (0.2 : ℚ) = 1/5 := by norm_num
  have h08 : (0.8 : ℚ) = 4/5 := by norm_num
  split_ifs with hA hB
  · rw [h02] at hA ⊢
    have w1 : (0:ℚ) ≤ 1/5 - pg := by linarith
    constructor
    · nlinarith [mul_nonneg (sub_nonneg.mpr hlop) w1, mul_nonneg (sub_nonneg.mpr hloc) hpg0]
    · nlinarith [mul_nonneg (sub_nonneg.mpr hphi) w1, mul_nonneg (sub_nonneg.mpr hchi) hpg0]
  · rw [h08] at hB
    rw [h02, h08]
    have w1 : (0:ℚ) ≤ 1 - pg := by linarith
    have w2 : (0:ℚ) ≤ pg - 4/5 := by linarith
    constructor
    · nlinarith [mul_nonneg (sub_nonneg.mpr hloc) w1, mul_nonneg (sub_nonneg.mpr hlon) w2]
    · nlinarith [mul_nonneg (sub_nonneg.mpr hchi) w1, mul_nonneg (sub_nonneg.mpr hnhi) w2]
  · exact ⟨hloc, hchi⟩

theorem prevIdx_lt {idx : ℕ} (h : idx < 12) : prevIdx idx < 12 := by
  unfold prevIdx; split_ifs <;> omega

theorem nextIdx_lt (idx : ℕ) : nextIdx idx < 12 := Nat.mod_lt _ (by omega)

theorem getD_mem {l : List ℚ} {i : ℕ} (h : i < l.length) : l.getD i 0 ∈ l := by
  rw [List.getD_eq_getElem _ _ h]
  exact List.getElem_mem h

/-!
## Claims C3, C4, C10: the humidity interpolation
-/

/-- C3: for every valid 12-month profile and month with at least two days,
the interpolated series agrees with the anchors at the breakpoints: day 1
yields the previous-month anchor (rounded), the last day yields the
next-month anchor (rounded), and any day whose progress lies in `[0.2,0.8]`
(in particular exactly 0.2 or 0.8) yields the unblended current-month
anchor (rounded). -/
theorem claim_C3_thm (p : List ℚ) (y m : ℕ) (_hm1 : 1 ≤ m) (_hm2 : m ≤ 12)
    (_hlen : p.length = 12) (_hvals : ∀ v ∈ p, 0 ≤ v ∧ v ≤ 100)
    (hdm : 2 ≤ daysInMonth y m) :
    (interpolateMonth p y m).getD 0 0 = roundTo1 (p.getD (prevIdx (m - 1)) 0) ∧
    (interpolateMonth p y m).getD (daysInMonth y m - 1) 0 =
      roundTo1 (p.getD (nextIdx (m - 1)) 0) ∧
    (∀ day, 1 ≤ day → day ≤ daysInMonth y m →
      (0.2 : ℚ) ≤ ((day:ℚ) - 1) / ((daysInMonth y m : ℚ) - 1) →
      ((day:ℚ) - 1) / ((daysInMonth y m : ℚ) - 1) ≤ 0.8 →
      (interpolateMonth p y m).getD (day - 1) 0 = roundTo1 (p.getD (m - 1) 0)) := by
  refine ⟨?_, ?_, ?_⟩
  · rw [interpolateMonth, dailyHumidityList_getD _ _ _ (by omega)]
    rw [interpolateDay_day_one]
  · rw [interpolateMonth, dailyHumidityList_getD _ _ _ (by omega)]
    rw [show daysInMonth y m - 1 + 1 = daysInMonth y m by omega]
    rw [interpolateDay_last _ _ _ hdm]
  · intro day hd1 hd2 hpg1 hpg2
    rw [interpolateMonth, dailyHumidityList_getD _ _ _ (by omega)]
    rw [show day - 1 + 1 = day by omega]
    rw [interpolateDay_mid _ _ _ hpg1 hpg2]

/-- C3 witness: the specification's worked example — March 2025 over the
profile `[40,45,50,55,60,65,70,65,60,55,50,45]` gives 45.0 on day 1, 50.0
on day 16 and 55.0 on day 31. -/
theorem claim_C3_wit :
    (1 ≤ 3 ∧ 3 ≤ 12 ∧ marchProfile.length = 12 ∧
      (∀ v ∈ marchProfile, 0 ≤ v ∧ v ≤ 100) ∧ 2 ≤ daysInMonth 2025 3) ∧
    (interpolateMonth marchProfile 2025 3).getD 0 0 = 45 ∧
    (interpolateMonth marchProfile 2025 3).getD 15 0 = 50 ∧
    (interpolateMonth marchProfile 2025 3).getD 30 0 = 55 := by
  have h := claim_C3_thm marchProfile 2025 3 (by norm_num) (by norm_num) (by decide)
    (by decide) (by decide)
  have hd : daysInMonth 2025 3 = 31 := by decide
  have hp : marchProfile.getD (prevIdx (3 - 1)) 0 = 45 := by decide
  have hc : marchProfile.getD (3 - 1) 0 = 50 := by decide
  have hn : marchProfile.getD (nextIdx (3 - 1)) 0 = 55 := by decide
  refine ⟨⟨by norm_num, by norm_num, by decide, by decide, by decide⟩, ?_, ?_, ?_⟩
  · rw [h.1, hp, roundTo1_eq 45 450 (by norm_num)]; norm_num
  · have h16 := h.2.2 16 (by norm_num) (by rw [hd]; norm_num)
      (by rw [hd]; norm_num) (by rw [hd]; norm_num)
    rw [h16, hc, roundTo1_eq 50 500 (by norm_num)]; norm_num
  · have h31 := h.2.1
    rw [hd] at h31
    rw [h31, hn, roundTo1_eq 55 550 (by norm_num)]; norm_num

/-- C4: the interpolated daily series has exactly `daysInMonth` entries,
one per day of the requested month. -/
theorem claim_C4_thm (p : List ℚ) (y m : ℕ) (_hlen : p.length = 12)
    (_hvals : ∀ v ∈ p, 0 ≤ v ∧ v ≤ 100) (_hdm : 2 ≤ daysInMonth y m) :
    (interpolateMonth p y m).length = daysInMonth y m := by
  simp [interpolateMonth, dailyHumidityList]

/-- C4 witness: the March 2025 series over the example profile has 31
entries. -/
theorem claim_C4_wit :
    (marchProfile.length = 12 ∧ (∀ v ∈ marchProfile, 0 ≤ v ∧ v ≤ 100) ∧
      2 ≤ daysInMonth 2025 3) ∧
    (interpolateMonth marchProfile 2025 3).length = daysInMonth 2025 3 :=
  ⟨⟨by decide, by decide, by decide⟩,
    claim_C4_thm marchProfile 2025 3 (by decide) (by decide) (by decide)⟩

/-- C10: every pre-rounding daily value is a convex blend of the three
monthly anchors, hence lies between their minimum and maximum; in
particular a profile with all twelve values in `[0,100]` yields a series
entirely inside `[0,100]` — the blend cannot overshoot the anchor range. -/
theorem claim_C10_thm (p : List ℚ) (y m : ℕ) (hm1 : 1 ≤ m) (hm2 : m ≤ 12)
    (hlen : p.length = 12) :
    (∀ day, 1 ≤ day → day ≤ daysInMonth y m →
      min (p.getD (prevIdx (m - 1)) 0) (min (p.getD (m - 1) 0) (p.getD (nextIdx (m - 1)) 0)) ≤
        interpolateDay (p.getD (prevIdx (m - 1)) 0) (p.getD (m - 1) 0)
          (p.getD (nextIdx (m - 1)) 0) day (daysInMonth y m) ∧
      interpolateDay (p.getD (prevIdx (m - 1)) 0) (p.getD (m - 1) 0)
          (p.getD (nextIdx (m - 1)) 0) day (daysInMonth y m) ≤
        max (p.getD (prevIdx (m - 1)) 0)
          (max (p.getD (m - 1) 0) (p.getD (nextIdx (m - 1)) 0))) ∧
    ((∀ v ∈ p, 0 ≤ v ∧ v ≤ 100) → ∀ hv ∈ interpolateMonth p y m, 0 ≤ hv ∧ hv ≤ 100) := by
  have hdm : 2 ≤ daysInMonth y m := le_trans (by norm_num) (daysInMonth_ge y m)
  constructor
  · intro day hd1 hd2
    exact interpolateDay_bounds _ _ _ hdm hd1 hd2
  · intro hvals hv hmem
    simp only [interpolateMonth, dailyHumidityList, List.mem_map, List.mem_range] at hmem
    obtain ⟨i, hi, hval⟩ := hmem
    have hprev := hvals _ (getD_mem (l := p) (i := prevIdx (m - 1)) (by rw [hlen]; exact prevIdx_lt (by omega)))
    have hcurr := hvals _ (getD_mem (l := p) (i := m - 1) (by rw [hlen]; omega))
    have hnext := hvals _ (getD_mem (l := p) (i := nextIdx (m - 1)) (by rw [hlen]; exact nextIdx_lt _))
    have hb := interpolateDay_bounds (p.getD (prevIdx (m - 1)) 0) (p.getD (m - 1) 0)
      (p.getD (nextIdx (m - 1)) 0) hdm (show 1 ≤ i + 1 by omega) (by omega)
    have hlo : (0:ℚ) ≤ min (p.getD (prevIdx (m - 1)) 0)
        (min (p.getD (m - 1) 0) (p.getD (nextIdx (m - 1)) 0)) :=
      le_min hprev.1 (le_min hcurr.1 hnext.1)
    have hhi : max (p.getD (prevIdx (m - 1)) 0)
        (max (p.getD (m - 1) 0) (p.getD (nextIdx (m - 1)) 0)) ≤ 100 :=
      max_le hprev.2 (max_le hcurr.2 hnext.2)
    rw [← hval]
    exact roundTo1_bounds (le_trans hlo hb.1) (le_trans hb.2 hhi)

/-- C10 witness: the March 2025 series over the example profile stays in
`[0,100]`, and day 1 lies between the anchor extremes. -/
theorem claim_C10_wit :
    (1 ≤ 3 ∧ 3 ≤ 12 ∧ marchProfile.length = 12 ∧
      (∀ v ∈ marchProfile, 0 ≤ v ∧ v ≤ 100)) ∧
    (∀ hv ∈ interpolateMonth marchProfile 2025 3, 0 ≤ hv ∧ hv ≤ 100) :=
  ⟨⟨by decide, by decide, by decide, by decide⟩,
    (claim_C10_thm marchProfile 2025 3 (by decide) (by decide) (by decide)).2 (by decide)⟩

/-!
## Claims C7, C8, C9: the record filter and the frame property
-/

theorem applyFilters_eq_filter (df : List EnzymeRecord) (p : FilterParams) :
    applyFilters df p = df.filter (recordPred p) := by
  unfold applyFilters mwStep phStep tempStep classStep
  split_ifs with hc
  · rw [List.filter_filter, List.filter_filter, List.filter_filter]
    refine List.filter_congr fun r _ => ?_
    have hb : (p.selectedClass == "All") = false := by
      simpa using hc
    simp only [recordPred, hb, Bool.false_or]
    simp [Bool.and_assoc, Bool.and_comm, Bool.and_left_comm]
  · push_neg at hc
    rw [List.filter_filter, List.filter_filter]
    refine List.filter_congr fun r _ => ?_
    simp only [recordPred, hc, beq_self_eq_true, Bool.true_or, Bool.true_and]
    simp [Bool.and_assoc, Bool.and_comm, Bool.and_left_comm]

/-- C7: the filter is the conjunction of its four predicates (classification
wildcard or equality, inclusive temperature range, inclusive pH range,
molecular-weight lower bound), it is stable (the result is a sublist of the
input, so surviving records keep their relative order), and a wildcard
classification with covering ranges and a zero weight threshold returns the
records unchanged. -/
theorem claim_C7_thm (df : List EnzymeRecord) (p : FilterParams) :
    applyFilters df p = df.filter (recordPred p) ∧
    List.Sublist (applyFilters df p) df ∧
    (p.selectedClass = "All" → p.mwThreshold = 0 →
      (∀ r ∈ df, p.tempLo ≤ r.Temperature_Optimum ∧ r.Temperature_Optimum ≤ p.tempHi ∧
        p.phLo ≤ r.pH_Optimum ∧ r.pH_Optimum ≤ p.phHi ∧ 0 ≤ r.Molecular_Weight) →
      applyFilters df p = df) := by
  refine ⟨applyFilters_eq_filter df p, ?_, ?_⟩
  · rw [applyFilters_eq_filter]
    exact List.filter_sublist df
  · intro hAll hmw hcov
    rw [applyFilters_eq_filter]
    apply List.filter_eq_self.mpr
    intro r hr
    obtain ⟨h1, h2, h3, h4, h5⟩ := hcov r hr
    simp [recordPred, hAll, hmw, h1, h2, h3, h4, h5]

/-- C7 witness: the default predicate set keeps the one-record table
unchanged. -/
theorem claim_C7_wit :
    (prmAll.selectedClass = "All" ∧ prmAll.mwThreshold = 0 ∧
      (∀ r ∈ dfw, prmAll.tempLo ≤ r.Temperature_Optimum ∧
        r.Temperature_Optimum ≤ prmAll.tempHi ∧ prmAll.phLo ≤ r.pH_Optimum ∧
        r.pH_Optimum ≤ prmAll.phHi ∧ 0 ≤ r.Molecular_Weight)) ∧
    applyFilters dfw prmAll = dfw :=
  ⟨⟨rfl, rfl, by decide⟩, (claim_C7_thm dfw prmAll).2.2 rfl rfl (by decide)⟩

/-- C8: filtering is a projection — applying the filter twice is the same
as filtering once with the conjoined predicates. -/
theorem claim_C8_thm (df : List EnzymeRecord) (p1 p2 : FilterParams) :
    applyFilters (applyFilters df p1) p2 =
      df.filter fun r => recordPred p1 r && recordPred p2 r := by
  rw [applyFilters_eq_filter, applyFilters_eq_filter, List.filter_filter]
  exact List.filter_congr fun r _ => Bool.and_comm _ _

theorem filter_base_map (l : List EnzymeRecord) (q : CopyRow → Bool) :
    (l.map fun r => (⟨r, none⟩ : CopyRow)).filter q =
      (l.filter fun r => q ⟨r, none⟩).map fun r => (⟨r, none⟩ : CopyRow) := by
  rw [List.filter_map]
  rfl

theorem runAnalysis_filtered (df : List EnzymeRecord) (p : FilterParams) :
    (runAnalysis df p).filtered =
      (applyFilters df p).map fun r => (⟨r, some (efficiency r)⟩ : CopyRow) := by
  simp only [runAnalysis, addEfficiencyStep, mwFilterStep, phFilterStep, tempFilterStep,
    classFilterStep, copyStep, applyFilters, mwStep, phStep, tempStep, classStep]
  split_ifs with hc
  · rw [filter_base_map, filter_base_map, filter_base_map, filter_base_map, List.map_map]
    rfl
  · rw [filter_base_map, filter_base_map, filter_base_map, List.map_map]
    rfl

/-- C9: the pipeline never writes back into the loaded table — after
filtering and computing the derived efficiency column, the `df` frame is
unchanged, the working copy's base records are exactly the filter output,
and the efficiency lives only on the copy's rows. -/
theorem claim_C9_thm (df : List EnzymeRecord) (p : FilterParams) :
    (runAnalysis df p).df = df ∧
    (runAnalysis df p).filtered.map CopyRow.base = applyFilters df p ∧
    (∀ x ∈ (runAnalysis df p).filtered, x.eff = some (efficiency x.base)) := by
  refine ⟨rfl, ?_, ?_⟩
  · rw [runAnalysis_filtered, List.map_map]
    exact List.map_id _
  · intro x hx
    rw [runAnalysis_filtered] at hx
    obtain ⟨r, _, rfl⟩ := List.mem_map.mp hx
    rfl

/-- C9 witness: on the one-record table with the default parameters, the
loaded frame is returned unchanged and the copy's row carries the derived
efficiency. -/
theorem claim_C9_wit :
    ((⟨catRec, some (efficiency catRec)⟩ : CopyRow) ∈ (runAnalysis dfw prmAll).filtered) ∧
    (runAnalysis dfw prmAll).df = dfw ∧
    (⟨catRec, some (efficiency catRec)⟩ : CopyRow).eff =
      some (efficiency (⟨catRec, some (efficiency catRec)⟩ : CopyRow).base) := by
  have happ : applyFilters dfw prmAll = dfw := by decide
  have hmem : (⟨catRec, some (efficiency catRec)⟩ : CopyRow) ∈
      (runAnalysis dfw prmAll).filtered := by
    rw [runAnalysis_filtered, happ]
    simp [dfw]
  exact ⟨hmem, (claim_C9_thm dfw prmAll).1, (claim_C9_thm dfw prmAll).2.2 _ hmem⟩

/-!
## Claim C5: `topEfficient` on tables with nonzero `Km`
-/

theorem efficiency_of_km_ne_zero {r : EnzymeRecord} (h : r.Km_Value ≠ 0) :
    efficiency r = .val (r.Vmax / r.Km_Value) := by
  rw [efficiency, effDiv, if_pos h]

/-- C5: on a table whose `Km` values are all nonzero, `topEfficient R k`
returns records of `R`, exactly `min k |R|` of them, sorted descending by
efficiency, and stable on ties: for every efficiency value, the records
carrying it appear in the result as a prefix of their original order. -/
theorem claim_C5_thm (R : List EnzymeRecord) (k : ℕ)
    (hkm : ∀ r ∈ R, r.Km_Value ≠ 0) :
    (∀ r ∈ topEfficient R k, r ∈ R) ∧
    (topEfficient R k).length = min k R.length ∧
    (topEfficient R k).Pairwise
      (fun a b => b.Vmax / b.Km_Value ≤ a.Vmax / a.Km_Value) ∧
    (∀ e : ℚ, ∃ t, R.filter (fun r => decide (r.Vmax / r.Km_Value = e)) =
      (topEfficient R k).filter (fun r => decide (r.Vmax / r.Km_Value = e)) ++ t) := by
  have hnn : (R.filter fun r => !effIsNan (efficiency r)) = R := by
    apply List.filter_eq_self.mpr
    intro r hr
    rw [efficiency_of_km_ne_zero (hkm r hr)]
    rfl
  have htop : topEfficient R k = (R.insertionSort effGE).take k := by
    rw [topEfficient, hnn]
  have hmemR : ∀ r ∈ topEfficient R k, r ∈ R := by
    intro r hr
    rw [htop] at hr
    exact (List.mem_insertionSort effGE).mp (List.mem_of_mem_take hr)
  refine ⟨hmemR, ?_, ?_, ?_⟩
  · rw [htop, List.length_take, List.length_insertionSort]
  · have hs : (R.insertionSort effGE).Pairwise effGE :=
      List.sorted_insertionSort effGE R
    have htk : (topEfficient R k).Pairwise effGE := by
      rw [htop]
      exact List.Pairwise.sublist (List.take_sublist k _) hs
    refine List.Pairwise.imp_of_mem ?_ htk
    intro a b ha hb hab
    have haR := hkm a (hmemR a ha)
    have hbR := hkm b (hmemR b hb)
    rw [effGE, efficiency_of_km_ne_zero haR, efficiency_of_km_ne_zero hbR] at hab
    simp only [effRank, WithBot.coe_le_coe, WithTop.coe_le_coe] at hab
    exact hab
  · intro e
    set p : EnzymeRecord → Bool := fun r => decide (r.Vmax / r.Km_Value = e) with hp
    have hpc : (R.filter p).Pairwise effGE := by
      apply List.pairwise_of_forall_mem_list
      intro a ha b hb
      obtain ⟨haR, hpa⟩ := List.mem_filter.mp ha
      obtain ⟨hbR, hpb⟩ := List.mem_filter.mp hb
      have hea : a.Vmax / a.Km_Value = e := of_decide_eq_true hpa
      have heb : b.Vmax / b.Km_Value = e := of_decide_eq_true hpb
      rw [effGE, efficiency_of_km_ne_zero (hkm a haR),
        efficiency_of_km_ne_zero (hkm b hbR), hea, heb]
    have hsub : List.Sublist (R.filter p) (R.insertionSort effGE) :=
      List.sublist_insertionSort hpc (List.filter_sublist R)
    have hsub2 : List.Sublist (R.filter p) ((R.insertionSort effGE).filter p) := by
      have h1 := List.Sublist.filter p hsub
      rwa [List.filter_filter,
        List.filter_congr (fun a _ => Bool.and_self (p a))] at h1
    have hlen : ((R.insertionSort effGE).filter p).length = (R.filter p).length :=
      (((List.perm_insertionSort effGE R).filter p)).length_eq
    have heq : R.filter p = (R.insertionSort effGE).filter p :=
      List.Sublist.eq_of_length hsub2 hlen.symm
    refine ⟨((R.insertionSort effGE).drop k).filter p, ?_⟩
    rw [htop, heq]
    conv_lhs => rw [← List.take_append_drop k (R.insertionSort effGE)]
    rw [List.filter_append]

/-- C5 witness: on the three-record table with all `Km` nonzero,
`topEfficient` returns `min 2 3` records. -/
theorem claim_C5_wit :
    (∀ r ∈ rankTable, r.Km_Value ≠ 0) ∧
    (topEfficient rankTable 2).length = min 2 rankTable.length :=
  ⟨by decide, (claim_C5_thm rankTable 2 (by decide)).2.1⟩

/-!
## Claim C1: zero `Km` under `nlargest`
-/

theorem c1e1_eff : efficiency c1e1 = .val 5 := by
  rw [efficiency_of_km_ne_zero (by decide)]
  have : c1e1.Vmax / c1e1.Km_Value = 5 := by norm_num [c1e1]
  rw [this]

theorem c1e2_eff : efficiency c1e2 = .posInf := by
  simp only [efficiency, effDiv]
  rw [if_neg (by decide), if_pos (by decide)]

theorem topEfficient_c1R : topEfficient c1R 2 = [c1e2, c1e1] := by
  have hGE : ¬ effGE c1e1 c1e2 := by
    rw [effGE, c1e1_eff, c1e2_eff]
    simp only [effRank, WithBot.coe_le_coe, top_le_iff]
    exact WithTop.coe_ne_top
  rw [topEfficient]
  have hfil : (c1R.filter fun r => !effIsNan (efficiency r)) = [c1e1, c1e2] := by
    simp [c1R, c1e1_eff, c1e2_eff, effIsNan]
  rw [hfil]
  simp [List.insertionSort, List.orderedInsert, hGE]

/-- C1 counterexample: on the example input the zero-`Km` record is not
excluded — `topEfficient` returns both records (the zero-`Km` one first),
not exactly one. -/
theorem claim_C1_cex :
    topEfficient c1R 2 = [c1e2, c1e1] ∧ topEfficient c1R 2 ≠ [c1e1] := by
  refine ⟨topEfficient_c1R, ?_⟩
  rw [topEfficient_c1R]
  simp [c1e1, c1e2]

/-- C1 amended: a record with `Km = 0` and positive `Vmax` gets efficiency
`+inf` (IEEE division), is kept by `nlargest` and ranks above every finite
efficiency; only a `0/0` efficiency is NaN and dropped.  On the example
input `topEfficient` returns both records, the zero-`Km` one first, without
failing. -/
theorem claim_C1_thm :
    (∀ (R : List EnzymeRecord) (r : EnzymeRecord), r ∈ R → r.Km_Value = 0 →
      0 < r.Vmax →
      efficiency r = .posInf ∧ r ∈ R.filter fun x => !effIsNan (efficiency x)) ∧
    effDiv 0 0 = .nan ∧
    topEfficient c1R 2 = [c1e2, c1e1] := by
  refine ⟨?_, ?_, topEfficient_c1R⟩
  · intro R r hr hkm hv
    have heff : efficiency r = .posInf := by
      rw [efficiency, hkm]
      simp only [effDiv]
      rw [if_neg (by simp), if_pos hv]
    refine ⟨heff, List.mem_filter.mpr ⟨hr, ?_⟩⟩
    rw [heff]
    rfl
  · simp only [effDiv]
    rw [if_neg (by simp), if_neg (by simp), if_neg (by simp)]

/-- C1 witness: the example's zero-`Km` record satisfies the hypotheses and
receives efficiency `+inf`. -/
theorem claim_C1_wit :
    (c1e2 ∈ c1R ∧ c1e2.Km_Value = 0 ∧ 0 < c1e2.Vmax) ∧
      efficiency c1e2 = .posInf :=
  ⟨⟨by decide, by decide, by decide⟩,
    (claim_C1_thm.1 c1R c1e2 (by decide) (by decide) (by decide)).1⟩

/-!
## Claim C2: purity of `get_weather_data`
-/

/-- C2 counterexample: the same city, country and loaded table give
different outputs when the ambient current date moves from February to
March 2025 — the call reads `datetime.now()`, so it is not a function of
its explicit inputs plus the loaded tables alone. -/
theorem claim_C2_cex :
    getWeatherData [xrow] "X" ⟨2025, 2, 10⟩ ≠ getWeatherData [xrow] "X" ⟨2025, 3, 10⟩ := by
  have hfind : List.find? (fun row => row.City == "X") [xrow] = some xrow := by
    rw [List.find?_cons_of_pos _ (by decide)]
  have hd2 : daysInMonth 2025 2 = 28 := by decide
  have hd3 : daysInMonth 2025 3 = 31 := by decide
  intro hcontra
  have e1 : (getWeatherData [xrow] "X" ⟨2025, 2, 10⟩).map
      (fun w => w.daily_humidity.length) = some 28 := by
    simp [getWeatherData, hfind, dailyHumidityList_length, hd2]
  have e2 : (getWeatherData [xrow] "X" ⟨2025, 3, 10⟩).map
      (fun w => w.daily_humidity.length) = some 31 := by
    simp [getWeatherData, hfind, dailyHumidityList_length, hd3]
  rw [hcontra, e2] at e1
  simp at e1

/-- C2 amended: `get_weather_data` is a pure function of its explicit
inputs, the loaded table, and the ambient current `(year, month)`:
the current day (and any finer time) does not influence the output. -/
theorem claim_C2_thm (table : List ClimateRow) (city : String)
    (y m d1 d2 : ℕ) :
    getWeatherData table city ⟨y, m, d1⟩ = getWeatherData table city ⟨y, m, d2⟩ := rfl

/-!
## Claim C6: the correlation matrix
-/

theorem zipProdSum_comm (c d : ℚ) : ∀ (l1 l2 : List ℚ),
    ((l1.zip l2).map fun q => (q.1 - c) * (q.2 - d)).sum =
      ((l2.zip l1).map fun q => (q.1 - d) * (q.2 - c)).sum
  | [], l2 => by simp
  | a :: t, [] => by simp
  | a :: t, b :: u => by
    simp only [List.zip_cons_cons, List.map_cons, List.sum_cons,
      zipProdSum_comm c d t u]
    ring

theorem demeanedDot_comm (xs ys : List ℚ) : demeanedDot xs ys = demeanedDot ys xs := by
  rw [demeanedDot, demeanedDot]
  exact zipProdSum_comm (colMean xs) (colMean ys) xs ys

theorem zip_self_map (xs : List ℚ) : xs.zip xs = xs.map fun a => (a, a) := by
  induction xs with
  | nil => rfl
  | cons a t ih => simp [ih]

theorem demeanedDot_self_nonneg (xs : List ℚ) : 0 ≤ demeanedDot xs xs := by
  rw [demeanedDot, zip_self_map, List.map_map]
  apply List.sum_nonneg
  intro x hx
  obtain ⟨a, _, rfl⟩ := List.mem_map.mp hx
  exact mul_self_nonneg _

/-- C6 amended: the correlation matrix is computed exactly when the
filtered set has more than one record; it is always symmetric; and a
diagonal entry equals 1.0 exactly for columns of nonzero squared deviation
— a constant column yields NaN (`none`) on its own diagonal instead. -/
theorem claim_C6_thm (R : List EnzymeRecord) :
    ((correlationSection R).isSome ↔ 1 < R.length) ∧
    (∀ i j, corrEntry R i j = corrEntry R j i) ∧
    (∀ i, demeanedDot (colList R i) (colList R i) ≠ 0 → corrEntry R i i = some 1) := by
  refine ⟨?_, ?_, ?_⟩
  · rw [correlationSection]
    split_ifs with h <;> simp [h]
  · intro i j
    simp only [corrEntry]
    rw [demeanedDot_comm (colList R i) (colList R j),
      mul_comm (demeanedDot (colList R i) (colList R i))
        (demeanedDot (colList R j) (colList R j))]
  · intro i hne
    simp only [corrEntry]
    rw [if_neg (by simpa using mul_self_ne_zero.mpr hne)]
    congr 1
    have hnn : (0:ℚ) ≤ demeanedDot (colList R i) (colList R i) :=
      demeanedDot_self_nonneg _
    have hcast : ((demeanedDot (colList R i) (colList R i) *
        demeanedDot (colList R i) (colList R i) : ℚ) : ℝ) =
        (demeanedDot (colList R i) (colList R i) : ℝ) *
          (demeanedDot (colList R i) (colList R i) : ℝ) := by
      push_cast
      ring
    rw [hcast, Real.sqrt_mul_self (by exact_mod_cast hnn)]
    rw [div_self (by exact_mod_cast hne)]

/-- C6 counterexample: with two identical records the matrix is computed
(`|R| > 1`) but the first diagonal entry is NaN (`none`), not 1.0 — pandas
`corr` produces NaN for a constant column. -/
theorem claim_C6_cex :
    1 < cR.length ∧ corrEntry cR ⟨0, by omega⟩ ⟨0, by omega⟩ = none ∧
      corrEntry cR ⟨0, by omega⟩ ⟨0, by omega⟩ ≠ some 1 := by
  have hdd : demeanedDot (colList cR ⟨0, by omega⟩) (colList cR ⟨0, by omega⟩) = 0 := by
    norm_num [demeanedDot, colList, colMean, numColVal, cR, crec]
  have hnone : corrEntry cR ⟨0, by omega⟩ ⟨0, by omega⟩ = none := by
    simp only [corrEntry]
    rw [if_pos (by rw [hdd, zero_mul])]
  refine ⟨by decide, hnone, ?_⟩
  rw [hnone]
  simp

/-- C6 witness: on a two-record table whose `Km` column varies, the first
diagonal entry of the correlation matrix is 1.0. -/
theorem claim_C6_wit :
    demeanedDot (colList cR2 ⟨0, by omega⟩) (colList cR2 ⟨0, by omega⟩) ≠ 0 ∧
      corrEntry cR2 ⟨0, by omega⟩ ⟨0, by omega⟩ = some 1 := by
  have hne : demeanedDot (colList cR2 ⟨0, by omega⟩) (colList cR2 ⟨0, by omega⟩) ≠ 0 := by
    norm_num [demeanedDot, colList, colMean, numColVal, cR2, crec, crec2]
  exact ⟨hne, (claim_C6_thm cR2).2.2 ⟨0, by omega⟩ hne⟩

end EnzymeDashboard
